import Mathlib

/-!
Shallow embedding of the note / engagement / comment subsystem of
`src/main/main.py` (FastAPI handlers).

The persistent store is a record of explicit lists of rows; timestamps are
naturals supplied to each operation as `now` (the handlers call
`datetime.now()`); each mutating handler returns its response paired with
the post-transaction store, and returns the store unchanged on every error
path (a raised `HTTPException` aborts the request before any commit).

Modelled from the spec: the model declarations `Note`, `Like`, `Favorite`
and `Comment` are imported by `src/main/main.py` from `db.models`, but the
`db/models.py` file under `src/` does not contain them; their fields are
taken from the spec (section 3, Data Model) and from every use in
`main.py`.  `Like` and `Favorite` have identical fields and are both
embedded as the record `Rel`.  Row ids are assigned from monotone
counters, and `created_at` defaults to the current time, as the spec
states.
-/

namespace NoteServer

structure Note where
  id : Nat
  user_id : Nat
  title : String
  content : String
  status : String
  published_at : Option Nat
  created_at : Nat
  updated_at : Nat
  deriving Repr, DecidableEq

structure Rel where
  id : Nat
  user_id : Nat
  note_id : Nat
  created_at : Nat
  deriving Repr, DecidableEq

structure Comment where
  id : Nat
  user_id : Nat
  note_id : Nat
  parent_id : Option Nat
  content : String
  created_at : Nat
  deriving Repr, DecidableEq

structure DB where
  notes : List Note
  likes : List Rel
  favorites : List Rel
  comments : List Comment
  nextNoteId : Nat
  nextRelId : Nat
  nextCommentId : Nat
  deriving Repr, DecidableEq

/-- Typed failures of the handlers: HTTP 404, 403 and the 400 raised for a
bad comment parent. -/
inductive Err where
  | notFound
  | forbidden
  | invalidParent
  deriving Repr, DecidableEq

/-- Point lookup by primary key, `session.get(Note, note_id)`. -/
def findNote (s : DB) (nid : Nat) : Option Note :=
  s.notes.find? (fun n => n.id == nid)

/-- Committing a mutated ORM row: the row with the note's id is replaced. -/
def putNote (s : DB) (nid : Nat) (n' : Note) : List Note :=
  s.notes.map (fun m => if m.id == nid then n' else m)

/-- Handler `get_note_by_id` (GET /api/notes/noteId): owner-only read,
404 both when the note is absent and when the caller is not the owner. -/
def get_note_by_id (uid nid : Nat) (s : DB) : Except Err Note :=
  match findNote s nid with
  | none => .error .notFound
  | some note => if note.user_id == uid then .ok note else .error .notFound

/-- Handler `create_note` (POST /api/notes).  `data.status or "private"`
in Python falls back to "private" for both a missing and an empty status;
a "public" status stamps `published_at` with the current time. -/
def create_note (uid : Nat) (title content : String) (status : Option String)
    (now : Nat) (s : DB) : Note × DB :=
  let st := match status with
    | none => "private"
    | some t => if t == "" then "private" else t
  let note : Note :=
    { id := s.nextNoteId, user_id := uid, title := title, content := content,
      status := st,
      published_at := if st == "public" then some now else none,
      created_at := now, updated_at := now }
  (note, { s with notes := s.notes ++ [note], nextNoteId := s.nextNoteId + 1 })

/-- Field application of the update handler: the provided fields are
copied onto the note; a status set to "public" stamps `published_at` only
when it is empty, a status set to "private" or "draft" clears it, and any
other status string is stored without touching `published_at`;
`updated_at` is always bumped. -/
def applyUpdate (note : Note) (title content status : Option String)
    (now : Nat) : Note :=
  let n1 := match title with
    | none => note
    | some t => { note with title := t }
  let n2 := match content with
    | none => n1
    | some c => { n1 with content := c }
  let n3 := match status with
    | none => n2
    | some st =>
      let nst := { n2 with status := st }
      if st == "public" && nst.published_at == none then
        { nst with published_at := some now }
      else if st == "private" || st == "draft" then
        { nst with published_at := none }
      else nst
  { n3 with updated_at := now }

/-- Handler `update_note` (PUT /api/notes/noteId): owner-guarded generic
field update. -/
def update_note (uid nid : Nat) (title content status : Option String)
    (now : Nat) (s : DB) : Except Err Note × DB :=
  match findNote s nid with
  | none => (.error .notFound, s)
  | some note =>
    if note.user_id != uid then (.error .notFound, s)
    else
      let n4 := applyUpdate note title content status now
      (.ok n4, { s with notes := putNote s nid n4 })

/-- Handler `delete_note` (DELETE /api/notes/noteId).  Modelled from the
spec: the handler only issues `session.delete(note)`; whether the note's
likes, favorites and comments are cascade-deleted is decided by the model
declarations, which are not under `src/`.  The spec states that deleting a
note cascades its engagement and comment records ("the reference
implementation cascades"), so the embedding removes every like, favorite
and comment whose `note_id` references the deleted note. -/
def delete_note (uid nid : Nat) (s : DB) : Except Err Unit × DB :=
  match findNote s nid with
  | none => (.error .notFound, s)
  | some note =>
    if note.user_id != uid then (.error .notFound, s)
    else
      (.ok (),
        { s with
          notes := s.notes.eraseP (fun n => n.id == nid),
          likes := s.likes.filter (fun l => l.note_id != nid),
          favorites := s.favorites.filter (fun f => f.note_id != nid),
          comments := s.comments.filter (fun c => c.note_id != nid) })

/-- Handler `publish_note` (PUT /api/notes/noteId/publish): forces the
status to "public" and overwrites `published_at` with the current time. -/
def publish_note (uid nid now : Nat) (s : DB) : Except Err Note × DB :=
  match findNote s nid with
  | none => (.error .notFound, s)
  | some note =>
    if note.user_id != uid then (.error .notFound, s)
    else
      let n' := { note with status := "public", published_at := some now, updated_at := now }
      (.ok n', { s with notes := putNote s nid n' })

/-- Handler `save_note_as_draft` (PUT /api/notes/noteId/draft): forces the
status to "draft" and clears `published_at`. -/
def save_note_as_draft (uid nid now : Nat) (s : DB) : Except Err Note × DB :=
  match findNote s nid with
  | none => (.error .notFound, s)
  | some note =>
    if note.user_id != uid then (.error .notFound, s)
    else
      let n' := { note with status := "draft", published_at := none, updated_at := now }
      (.ok n', { s with notes := putNote s nid n' })

/-- Handler `autosave_note` (PUT /api/notes/noteId/autosave): replaces the
content and bumps `updated_at`, touching nothing else. -/
def autosave_note (uid nid : Nat) (content : String) (now : Nat) (s : DB) :
    Except Err Note × DB :=
  match findNote s nid with
  | none => (.error .notFound, s)
  | some note =>
    if note.user_id != uid then (.error .notFound, s)
    else
      let n' := { note with content := content, updated_at := now }
      (.ok n', { s with notes := putNote s nid n' })

/-- Selection used by both toggle handlers: the caller's relation row on
the note, `select(...).where(user_id == ...).where(note_id == ...)`. -/
def relPred (uid nid : Nat) (l : Rel) : Bool :=
  l.user_id == uid && l.note_id == nid

/-- Shared body of `toggle_like` and `toggle_favorite` (the two handlers
are line-for-line identical up to the table they act on): if the caller
already has a relation row on the note the first such row is deleted,
otherwise a fresh row is inserted; the returned flag is the new active
state. -/
def relToggle (uid nid nextId now : Nat) (rels : List Rel) : Bool × List Rel :=
  match rels.find? (relPred uid nid) with
  | some _ => (false, rels.eraseP (relPred uid nid))
  | none =>
    (true, rels ++ [{ id := nextId, user_id := uid, note_id := nid, created_at := now }])

/-- Count of relation rows on a note, `len(select(...).where(note_id == ...).all())`. -/
def relCount (rels : List Rel) (nid : Nat) : Nat :=
  (rels.filter (fun l => l.note_id == nid)).length

/-- Handler `toggle_like` (POST /api/notes/noteId/like): 404 when the note
is absent; otherwise toggles the caller's like and returns the new active
state together with the post-operation like count of the note. -/
def toggle_like (uid nid now : Nat) (s : DB) : Except Err (Bool × Nat) × DB :=
  match findNote s nid with
  | none => (.error .notFound, s)
  | some _ =>
    let r := relToggle uid nid s.nextRelId now s.likes
    let s' := { s with
                likes := r.2,
                nextRelId := if r.1 then s.nextRelId + 1 else s.nextRelId }
    (.ok (r.1, relCount s'.likes nid), s')

/-- Handler `toggle_favorite` (POST /api/notes/noteId/favorite): the exact
mirror of `toggle_like` on the favorites table. -/
def toggle_favorite (uid nid now : Nat) (s : DB) : Except Err (Bool × Nat) × DB :=
  match findNote s nid with
  | none => (.error .notFound, s)
  | some _ =>
    let r := relToggle uid nid s.nextRelId now s.favorites
    let s' := { s with
                favorites := r.2,
                nextRelId := if r.1 then s.nextRelId + 1 else s.nextRelId }
    (.ok (r.1, relCount s'.favorites nid), s')

/-- Handler `create_comment` (POST /api/notes/noteId/comments): 404 when
the note is absent; `if data.parent_id:` in Python is false both for
`None` and for `0`, so a parent id of `0` skips the parent validation
entirely and is stored as given. -/
def create_comment (uid nid : Nat) (content : String) (parentId : Option Nat)
    (now : Nat) (s : DB) : Except Err Comment × DB :=
  match findNote s nid with
  | none => (.error .notFound, s)
  | some _ =>
    let parentOk : Bool :=
      match parentId with
      | none => true
      | some p =>
        if p == 0 then true
        else
          match s.comments.find? (fun c => c.id == p) with
          | none => false
          | some pc => pc.note_id == nid
    if parentOk then
      let c : Comment :=
        { id := s.nextCommentId, user_id := uid, note_id := nid,
          parent_id := parentId, content := content, created_at := now }
      (.ok c, { s with
                comments := s.comments ++ [c],
                nextCommentId := s.nextCommentId + 1 })
    else (.error .invalidParent, s)

/-- Node of the reply tree the comment listing returns: a comment plus its
ordered list of replies. -/
inductive CNode where
  | mk (c : Comment) (replies : List CNode)
  deriving Repr

def CNode.comment : CNode → Comment
  | .mk c _ => c

def CNode.replies : CNode → List CNode
  | .mk _ rs => rs

/-- Stable insertion of a comment into a list sorted by `created_at`
ascending (a tie keeps the already-present comment first). -/
def insertByCreated (c : Comment) : List Comment → List Comment
  | [] => [c]
  | d :: ds =>
    if c.created_at < d.created_at then c :: d :: ds else d :: insertByCreated c ds

/-- Stable sort by `created_at` ascending, the listing's ORDER BY. -/
def orderByCreatedAsc : List Comment → List Comment
  | [] => []
  | c :: cs => insertByCreated c (orderByCreatedAsc cs)

/-- Comments of one note in creation order, the flat rows the listing
reads before reconstructing the tree. -/
def commentsOf (s : DB) (nid : Nat) : List Comment :=
  orderByCreatedAsc (s.comments.filter (fun c => c.note_id == nid))

/-- Tree reconstruction: the node of a comment carries, in order, the
nodes of the comments whose `parent_id` points at it.  `main.py` builds
this with one shared mutable dict node per comment; the rendered structure
is reproduced here by recursion with enough fuel: a comment can only
reference a comment created before it (ids are assigned monotonically),
so every chain of parents is shorter than the number of comments and
`cs.length` fuel renders the identical tree. -/
def buildNode (cs : List Comment) : Nat → Comment → CNode
  | 0, c => .mk c []
  | fuel + 1, c =>
    .mk c ((cs.filter (fun d => d.parent_id == some c.id)).map (buildNode cs fuel))

/-- Second pass of the reconstruction: the root nodes are the comments
with null `parent_id`, in creation order, each rendered by `buildNode`. -/
def commentForest (cs : List Comment) : List CNode :=
  (cs.filter (fun c => c.parent_id == none)).map (buildNode cs cs.length)

/-- Handler `get_comments` (GET /api/notes/noteId/comments): 404 when the
note is absent; otherwise returns the root comments (null `parent_id`) in
creation order, each with its nested replies, plus the total number of the
note's comments (orphans included). -/
def get_comments (nid : Nat) (s : DB) : Except Err (List CNode × Nat) :=
  match findNote s nid with
  | none => .error .notFound
  | some _ => .ok (commentForest (commentsOf s nid), (commentsOf s nid).length)

/-- Handler `delete_comment` (DELETE /api/comments/commentId): 404 when
the comment is absent, 403 when the caller does not own it; on success
only that comment row is deleted, its children are left untouched. -/
def delete_comment (uid cid : Nat) (s : DB) : Except Err Unit × DB :=
  match s.comments.find? (fun c => c.id == cid) with
  | none => (.error .notFound, s)
  | some c =>
    if c.user_id != uid then (.error .forbidden, s)
    else (.ok (), { s with comments := s.comments.eraseP (fun d => d.id == cid) })

/-- Sort key of the discover feed, the publication timestamp (every note
the feed query selects has one). -/
def pubKey (n : Note) : Nat := n.published_at.getD 0

/-- Stable insertion into a list sorted by `published_at` descending. -/
def insertByPubDesc (n : Note) : List Note → List Note
  | [] => [n]
  | m :: ms => if pubKey m < pubKey n then n :: m :: ms else m :: insertByPubDesc n ms

/-- Stable sort by `published_at` descending, the feed's ORDER BY. -/
def orderByPubDesc : List Note → List Note
  | [] => []
  | n :: ns => insertByPubDesc n (orderByPubDesc ns)

/-- Rows the discover query selects: public status and a non-null
publication timestamp. -/
def discoverQualifying (s : DB) : List Note :=
  s.notes.filter (fun n => n.status == "public" && n.published_at != none)

/-- Handler `get_discover_notes` (GET /api/discover): public notes by
`published_at` descending, `offset = (page - 1) * pageSize`, `limit =
pageSize`, and the total of all qualifying rows ignoring pagination.  The
per-entry author and count enrichment of the handler is a pure read of the
other tables and does not change which note rows are listed, so the
embedding returns the note rows themselves. -/
def get_discover_notes (page pageSize : Nat) (s : DB) : List Note × Nat :=
  let offset := (page - 1) * pageSize
  (((orderByPubDesc (discoverQualifying s)).drop offset).take pageSize,
    (discoverQualifying s).length)

/-- Publication-state invariant of the spec: a note's status is "public"
exactly when its `published_at` is set. -/
def statusPubIffStamped (n : Note) : Prop :=
  n.status = "public" ↔ n.published_at ≠ none

instance (n : Note) : Decidable (statusPubIffStamped n) := by
  unfold statusPubIffStamped; infer_instance

/-- Store-wide publication-state invariant. -/
def Inv (s : DB) : Prop := ∀ n ∈ s.notes, statusPubIffStamped n

instance (s : DB) : Decidable (Inv s) := by
  unfold Inv; exact List.decidableBAll _ _

/-- One note operation of the state machine, with the caller-supplied
arguments of the corresponding handler. -/
inductive NoteOp where
  | create (uid : Nat) (title content : String) (status : Option String) (now : Nat)
  | update (uid nid : Nat) (title content status : Option String) (now : Nat)
  | publish (uid nid now : Nat)
  | toDraft (uid nid now : Nat)
  | autosave (uid nid : Nat) (content : String) (now : Nat)

/-- State reached after one note operation. -/
def NoteOp.apply (s : DB) : NoteOp → DB
  | .create uid t c st now => (create_note uid t c st now s).2
  | .update uid nid t c st now => (update_note uid nid t c st now s).2
  | .publish uid nid now => (publish_note uid nid now s).2
  | .toDraft uid nid now => (save_note_as_draft uid nid now s).2
  | .autosave uid nid c now => (autosave_note uid nid c now s).2

/-- Restriction on the caller-supplied status of a generic update: one of
the three documented states, or absent. -/
def NoteOp.statusOk : NoteOp → Prop
  | .update _ _ _ _ status _ =>
    status = none ∨ status = some "private" ∨ status = some "draft" ∨
      status = some "public"
  | _ => True

/-- State reached after a sequence of note operations. -/
def runOps (s : DB) (ops : List NoteOp) : DB := ops.foldl NoteOp.apply s

/-! Helper lemmas. -/

theorem findCons_pos {α} (p : α → Bool) (a : α) (l : List α) (h : p a = true) :
    (a :: l).find? p = some a := by simp [List.find?, h]

theorem findCons_neg {α} (p : α → Bool) (a : α) (l : List α) (h : p a = false) :
    (a :: l).find? p = l.find? p := by simp [List.find?, h]

theorem find?_map_replace (l : List Note) (nid : Nat) (note n' : Note)
    (hfind : l.find? (fun n => n.id == nid) = some note) (hid : (n'.id == nid) = true) :
    (l.map (fun m => if m.id == nid then n' else m)).find? (fun n => n.id == nid) =
      some n' := by
  induction l with
  | nil => simp at hfind
  | cons a as ih =>
    by_cases ha : (a.id == nid) = true
    · rw [List.map_cons, if_pos ha, findCons_pos (fun n => n.id == nid) n' _ hid]
    · have ha' : (a.id == nid) = false := by simpa using ha
      have hfind' : as.find? (fun n => n.id == nid) = some note := by
        rwa [findCons_neg (fun n => n.id == nid) a _ ha'] at hfind
      rw [List.map_cons, if_neg ha, findCons_neg (fun n => n.id == nid) a _ ha']
      exact ih hfind'

theorem note_id_beq_of_findNote (s : DB) (nid : Nat) (note : Note)
    (hfind : findNote s nid = some note) : (note.id == nid) = true := by
  unfold findNote at hfind
  have h := List.find?_some hfind
  simpa using h

theorem mem_of_findNote (s : DB) (nid : Nat) (note : Note)
    (hfind : findNote s nid = some note) : note ∈ s.notes := by
  unfold findNote at hfind
  exact List.mem_of_find?_eq_some hfind

/-! Claim C7: operations guarded by ownership fail with NotFound (never
Forbidden) when the note is absent or foreign, leaving the store
untouched. -/

/-- C7: for the owner-guarded note operations (get, update, delete,
publish, unpublish-to-draft), when the note does not exist or exists but
is not owned by the caller, the operation fails NotFound — never
Forbidden — and the store is returned unchanged. -/
theorem owner_guard_fails_notFound (s : DB) (uid nid : Nat)
    (title content status : Option String) (now : Nat)
    (h : ∀ n, findNote s nid = some n → n.user_id ≠ uid) :
    get_note_by_id uid nid s = .error .notFound ∧
    update_note uid nid title content status now s = (.error .notFound, s) ∧
    delete_note uid nid s = (.error .notFound, s) ∧
    publish_note uid nid now s = (.error .notFound, s) ∧
    save_note_as_draft uid nid now s = (.error .notFound, s) := by
  cases hf : findNote s nid with
  | none =>
    simp [get_note_by_id, update_note, delete_note, publish_note,
      save_note_as_draft, hf]
  | some n =>
    have hne : n.user_id ≠ uid := h n hf
    have hb : (n.user_id != uid) = true := by simpa using hne
    have hb2 : (n.user_id == uid) = false := by simpa using hne
    simp [get_note_by_id, update_note, delete_note, publish_note,
      save_note_as_draft, hf, hb, hb2]

def c7Note : Note :=
  { id := 1, user_id := 2, title := "t", content := "c", status := "private",
    published_at := none, created_at := 0, updated_at := 0 }

def c7DB : DB :=
  { notes := [c7Note], likes := [], favorites := [], comments := [],
    nextNoteId := 2, nextRelId := 1, nextCommentId := 1 }

theorem owner_guard_fails_notFound_witness :
    (∀ n, findNote c7DB 1 = some n → n.user_id ≠ 3) ∧
    (get_note_by_id 3 1 c7DB = .error .notFound ∧
     update_note 3 1 none none none 5 c7DB = (.error .notFound, c7DB) ∧
     delete_note 3 1 c7DB = (.error .notFound, c7DB) ∧
     publish_note 3 1 5 c7DB = (.error .notFound, c7DB) ∧
     save_note_as_draft 3 1 5 c7DB = (.error .notFound, c7DB)) := by
  have h : ∀ n, findNote c7DB 1 = some n → n.user_id ≠ 3 := by
    intro n hn
    have h1 : findNote c7DB 1 = some c7Note := rfl
    rw [h1] at hn
    cases hn
    decide
  exact ⟨h, owner_guard_fails_notFound c7DB 3 1 none none none 5 h⟩

/-! Claim C10: autosave replaces the content, bumps updated_at and
changes nothing else, whatever the note's status. -/

/-- C10: for a note owned by the caller, autosave succeeds, replaces the
content with the supplied one and sets updated_at to the current time;
title, status, published_at, created_at, owner and id are unchanged, the
other notes are untouched, and the other tables are untouched.  No
hypothesis restricts the note's status. -/
theorem autosave_note_only_content_and_updated_at (s : DB) (uid nid : Nat)
    (content : String) (now : Nat) (note : Note)
    (hfind : findNote s nid = some note) (hown : note.user_id = uid) :
    ∃ n', autosave_note uid nid content now s =
        (.ok n', { s with notes := putNote s nid n' }) ∧
      n'.content = content ∧ n'.updated_at = now ∧
      n'.title = note.title ∧ n'.status = note.status ∧
      n'.published_at = note.published_at ∧ n'.created_at = note.created_at ∧
      n'.user_id = note.user_id ∧ n'.id = note.id ∧
      (∀ m ∈ s.notes, m.id ≠ nid → m ∈ putNote s nid n') := by
  have hb : (note.user_id != uid) = false := by simp [hown]
  refine ⟨{ note with content := content, updated_at := now }, ?_,
    rfl, rfl, rfl, rfl, rfl, rfl, rfl, rfl, ?_⟩
  · simp [autosave_note, hfind, hb]
  · intro m hm hne
    have hmb : (m.id == nid) = false := by simpa using hne
    unfold putNote
    exact List.mem_map.mpr ⟨m, hm, by simp [hmb]⟩

def c10Note : Note :=
  { id := 4, user_id := 2, title := "keep", content := "old", status := "public",
    published_at := some 3, created_at := 1, updated_at := 2 }

def c10DB : DB :=
  { notes := [c10Note], likes := [], favorites := [], comments := [],
    nextNoteId := 5, nextRelId := 1, nextCommentId := 1 }

theorem update_note_ok (s : DB) (uid nid : Nat) (note : Note)
    (hfind : findNote s nid = some note) (hown : note.user_id = uid)
    (title content status : Option String) (now : Nat) :
    update_note uid nid title content status now s =
      (.ok (applyUpdate note title content status now),
       { s with notes := putNote s nid (applyUpdate note title content status now) }) := by
  have hb : (note.user_id != uid) = false := by simp [hown]
  simp [update_note, hfind, hb]

theorem findNote_after_put (s : DB) (nid : Nat) (note n' : Note)
    (hfind : findNote s nid = some note) (hid : n'.id = note.id) :
    findNote { s with notes := putNote s nid n' } nid = some n' := by
  have h := note_id_beq_of_findNote s nid note hfind
  have hid2 : (n'.id == nid) = true := by
    simp only [beq_iff_eq] at h ⊢
    rw [hid, h]
  unfold findNote putNote
  exact find?_map_replace s.notes nid note n' hfind hid2

theorem applyUpdate_public_of_none (note : Note) (hp : note.published_at = none)
    (now : Nat) :
    applyUpdate note none none (some "public") now =
      { note with status := "public", published_at := some now, updated_at := now } := by
  simp [applyUpdate, hp]

theorem applyUpdate_public_of_some (note : Note) (x : Nat)
    (hp : note.published_at = some x) (now : Nat) :
    applyUpdate note none none (some "public") now =
      { note with status := "public", updated_at := now } := by
  simp [applyUpdate, hp]

theorem applyUpdate_draft (note : Note) (now : Nat) :
    applyUpdate note none none (some "draft") now =
      { note with status := "draft", published_at := none, updated_at := now } := by
  simp [applyUpdate]

/-! Claim C1: the publication-state invariant across operation
sequences. -/

theorem applyUpdate_status_none_fields (note : Note) (t c : Option String)
    (now : Nat) :
    (applyUpdate note t c none now).status = note.status ∧
    (applyUpdate note t c none now).published_at = note.published_at := by
  cases t <;> cases c <;> simp [applyUpdate]

theorem applyUpdate_public_fields (note : Note) (t c : Option String) (now : Nat) :
    (applyUpdate note t c (some "public") now).status = "public" ∧
    (applyUpdate note t c (some "public") now).published_at ≠ none := by
  cases t <;> cases c <;> cases hp : note.published_at <;> simp [applyUpdate, hp]

theorem applyUpdate_clear_fields (note : Note) (t c : Option String) (now : Nat)
    (st : String) (hst : st = "private" ∨ st = "draft") :
    (applyUpdate note t c (some st) now).status = st ∧
    (applyUpdate note t c (some st) now).published_at = none := by
  rcases hst with rfl | rfl <;> cases t <;> cases c <;> simp [applyUpdate]

theorem statusPubIffStamped_applyUpdate (note : Note)
    (hnote : statusPubIffStamped note) (t c status : Option String) (now : Nat)
    (hok : status = none ∨ status = some "private" ∨ status = some "draft" ∨
      status = some "public") :
    statusPubIffStamped (applyUpdate note t c status now) := by
  unfold statusPubIffStamped at hnote ⊢
  rcases hok with rfl | rfl | rfl | rfl
  · obtain ⟨h1, h2⟩ := applyUpdate_status_none_fields note t c now
    rw [h1, h2]; exact hnote
  · obtain ⟨h1, h2⟩ := applyUpdate_clear_fields note t c now "private" (Or.inl rfl)
    rw [h1, h2]; simp
  · obtain ⟨h1, h2⟩ := applyUpdate_clear_fields note t c now "draft" (Or.inr rfl)
    rw [h1, h2]; simp
  · obtain ⟨h1, h2⟩ := applyUpdate_public_fields note t c now
    rw [h1]; simp [h2]

theorem inv_putNote (s : DB) (nid : Nat) (n' : Note) (hs : Inv s)
    (hn' : statusPubIffStamped n') : ∀ n ∈ putNote s nid n', statusPubIffStamped n := by
  intro n hn
  rcases List.mem_map.mp hn with ⟨m, hm, rfl⟩
  by_cases h : (m.id == nid) = true
  · rw [if_pos h]; exact hn'
  · rw [if_neg h]; exact hs m hm

theorem applyOp_preserves_inv (op : NoteOp) (s : DB) (hs : Inv s)
    (hok : op.statusOk) : Inv (op.apply s) := by
  cases op with
  | create uid t c st now =>
    intro n hn
    simp only [NoteOp.apply, create_note] at hn
    rcases List.mem_append.mp hn with h | h
    · exact hs n h
    · rw [List.mem_singleton.mp h]
      set s2 := match st with
        | none => "private"
        | some u => if u == "" then "private" else u with hs2
      by_cases hpub : s2 = "public" <;> simp [statusPubIffStamped, hpub]
  | update uid nid t c st now =>
    simp only [NoteOp.apply]
    cases hf : findNote s nid with
    | none => simp only [update_note, hf]; exact hs
    | some note =>
      by_cases hu : (note.user_id != uid) = true
      · simp only [update_note, hf, hu, if_true]; exact hs
      · have hu' : (note.user_id != uid) = false := by simpa using hu
        simp only [update_note, hf, hu', if_false]
        have hok' : st = none ∨ st = some "private" ∨ st = some "draft" ∨
            st = some "public" := hok
        exact inv_putNote s nid _ hs
          (statusPubIffStamped_applyUpdate note
            (hs note (mem_of_findNote s nid note hf)) t c st now hok')
  | publish uid nid now =>
    simp only [NoteOp.apply]
    cases hf : findNote s nid with
    | none => simp only [publish_note, hf]; exact hs
    | some note =>
      by_cases hu : (note.user_id != uid) = true
      · simp only [publish_note, hf, hu, if_true]; exact hs
      · have hu' : (note.user_id != uid) = false := by simpa using hu
        simp only [publish_note, hf, hu', if_false]
        exact inv_putNote s nid _ hs (by simp [statusPubIffStamped])
  | toDraft uid nid now =>
    simp only [NoteOp.apply]
    cases hf : findNote s nid with
    | none => simp only [save_note_as_draft, hf]; exact hs
    | some note =>
      by_cases hu : (note.user_id != uid) = true
      · simp only [save_note_as_draft, hf, hu, if_true]; exact hs
      · have hu' : (note.user_id != uid) = false := by simpa using hu
        simp only [save_note_as_draft, hf, hu', if_false]
        exact inv_putNote s nid _ hs (by simp [statusPubIffStamped])
  | autosave uid nid c now =>
    simp only [NoteOp.apply]
    cases hf : findNote s nid with
    | none => simp only [autosave_note, hf]; exact hs
    | some note =>
      by_cases hu : (note.user_id != uid) = true
      · simp only [autosave_note, hf, hu, if_true]; exact hs
      · have hu' : (note.user_id != uid) = false := by simpa using hu
        simp only [autosave_note, hf, hu', if_false]
        refine inv_putNote s nid _ hs ?_
        have hn := hs note (mem_of_findNote s nid note hf)
        unfold statusPubIffStamped at hn ⊢
        simpa using hn

/-- C1 (amended): the invariant "status is public iff published_at is
set" is preserved by every sequence of note operations (create, update,
publish, unpublish-to-draft, autosave), provided every status value
supplied to a generic update is one of private, draft, public, or absent.
An update with a status string outside that set stores it without
touching published_at and can break the equivalence — see the
counterexample theorem. -/
theorem runOps_preserves_publish_invariant (s : DB) (ops : List NoteOp)
    (hs : Inv s) (hok : ∀ op ∈ ops, op.statusOk) : Inv (runOps s ops) := by
  induction ops generalizing s with
  | nil => simpa [runOps] using hs
  | cons op rest ih =>
    have h1 : runOps s (op :: rest) = runOps (op.apply s) rest := by simp [runOps]
    rw [h1]
    exact ih (op.apply s)
      (applyOp_preserves_inv op s hs (hok op (List.mem_cons_self op rest)))
      (fun o ho => hok o (List.mem_cons_of_mem op ho))

def c1Note : Note :=
  { id := 1, user_id := 7, title := "t", content := "c", status := "public",
    published_at := some 5, created_at := 1, updated_at := 1 }

def c1DB : DB :=
  { notes := [c1Note], likes := [], favorites := [], comments := [],
    nextNoteId := 2, nextRelId := 1, nextCommentId := 1 }

/-- C1 counterexample: from a store satisfying the invariant, one update
by the owner with the arbitrary caller-supplied status "archived" leaves
the note's published_at set while its status is no longer "public",
violating the claimed equivalence. -/
theorem update_note_arbitrary_status_breaks_invariant :
    Inv c1DB ∧ ¬ Inv ((update_note 7 1 none none (some "archived") 9 c1DB).2) := by
  constructor
  · decide
  · decide

def c1ops : List NoteOp :=
  [.update 7 1 (some "t2") none (some "public") 10, .toDraft 7 1 11,
   .autosave 7 1 "body" 12, .update 7 1 none none (some "public") 13]

theorem runOps_preserves_publish_invariant_witness :
    (Inv c1DB ∧ ∀ op ∈ c1ops, NoteOp.statusOk op) ∧ Inv (runOps c1DB c1ops) := by
  have hok : ∀ op ∈ c1ops, NoteOp.statusOk op := by
    intro op hop
    fin_cases hop <;> simp [NoteOp.statusOk]
  exact ⟨⟨by decide, hok⟩, runOps_preserves_publish_invariant c1DB c1ops (by decide) hok⟩

/-! Claim C4: republishing keeps the stamp, a draft round trip refreshes
it. -/

/-- C4: for a note owned by the caller, a second consecutive
update(status=public) leaves published_at exactly as the first one left
it; and update(status=draft) followed by update(status=public) stamps a
fresh published_at equal to the second update's time, different from the
stamp the note carried before the draft transition (the clock having
advanced past it). -/
theorem update_note_republish_keeps_and_draft_refreshes_stamp (s : DB)
    (uid nid : Nat) (note : Note) (hfind : findNote s nid = some note)
    (hown : note.user_id = uid) (t1 t2 t3 t4 : Nat) :
    (∃ n1 n2,
      (update_note uid nid none none (some "public") t1 s).1 = .ok n1 ∧
      (update_note uid nid none none (some "public") t2
          (update_note uid nid none none (some "public") t1 s).2).1 = .ok n2 ∧
      n2.published_at = n1.published_at) ∧
    (∀ t0, note.published_at = some t0 → t0 < t4 →
      ∃ m1 m2,
        (update_note uid nid none none (some "draft") t3 s).1 = .ok m1 ∧
        (update_note uid nid none none (some "public") t4
            (update_note uid nid none none (some "draft") t3 s).2).1 = .ok m2 ∧
        m2.published_at = some t4 ∧ m2.published_at ≠ some t0) := by
  constructor
  · -- first leg: update(status=public) twice
    have h1 := update_note_ok s uid nid note hfind hown none none (some "public") t1
    set n1 := applyUpdate note none none (some "public") t1 with hn1
    have hf2 : findNote { s with notes := putNote s nid n1 } nid = some n1 := by
      apply findNote_after_put s nid note n1 hfind
      rw [hn1]
      cases hp : note.published_at with
      | none => rw [applyUpdate_public_of_none note hp]
      | some x => rw [applyUpdate_public_of_some note x hp]
    have hown1 : n1.user_id = uid := by
      rw [hn1]
      cases hp : note.published_at with
      | none => rw [applyUpdate_public_of_none note hp]; exact hown
      | some x => rw [applyUpdate_public_of_some note x hp]; exact hown
    have h2 := update_note_ok { s with notes := putNote s nid n1 } uid nid n1 hf2
      hown1 none none (some "public") t2
    have hstamp : ∃ y, n1.published_at = some y := by
      rw [hn1]
      cases hp : note.published_at with
      | none => rw [applyUpdate_public_of_none note hp]; exact ⟨t1, rfl⟩
      | some x => rw [applyUpdate_public_of_some note x hp]; exact ⟨x, hp⟩
    obtain ⟨y, hy⟩ := hstamp
    refine ⟨n1, applyUpdate n1 none none (some "public") t2, by rw [h1], by rw [h1, h2], ?_⟩
    rw [applyUpdate_public_of_some n1 y hy]
  · -- second leg: update(status=draft) then update(status=public)
    intro t0 hp hlt
    have h1 := update_note_ok s uid nid note hfind hown none none (some "draft") t3
    set m1 := applyUpdate note none none (some "draft") t3 with hm1
    have hm1eq : m1 = { note with status := "draft", published_at := none, updated_at := t3 } := by
      rw [hm1, applyUpdate_draft]
    have hf2 : findNote { s with notes := putNote s nid m1 } nid = some m1 := by
      apply findNote_after_put s nid note m1 hfind
      rw [hm1eq]
    have hown1 : m1.user_id = uid := by rw [hm1eq]; exact hown
    have h2 := update_note_ok { s with notes := putNote s nid m1 } uid nid m1 hf2
      hown1 none none (some "public") t4
    have hpm1 : m1.published_at = none := by rw [hm1eq]
    refine ⟨m1, applyUpdate m1 none none (some "public") t4, by rw [h1], by rw [h1, h2], ?_, ?_⟩
    · rw [applyUpdate_public_of_none m1 hpm1]
    · rw [applyUpdate_public_of_none m1 hpm1]
      simp only [ne_eq, Option.some.injEq]
      omega

def c4Note : Note :=
  { id := 2, user_id := 5, title := "t", content := "c", status := "public",
    published_at := some 3, created_at := 1, updated_at := 1 }

def c4DB : DB :=
  { notes := [c4Note], likes := [], favorites := [], comments := [],
    nextNoteId := 3, nextRelId := 1, nextCommentId := 1 }

theorem update_note_republish_keeps_and_draft_refreshes_stamp_witness :
    (findNote c4DB 2 = some c4Note ∧ c4Note.user_id = 5) ∧
    ((∃ n1 n2,
      (update_note 5 2 none none (some "public") 10 c4DB).1 = .ok n1 ∧
      (update_note 5 2 none none (some "public") 11
          (update_note 5 2 none none (some "public") 10 c4DB).2).1 = .ok n2 ∧
      n2.published_at = n1.published_at) ∧
    (∀ t0, c4Note.published_at = some t0 → t0 < 13 →
      ∃ m1 m2,
        (update_note 5 2 none none (some "draft") 12 c4DB).1 = .ok m1 ∧
        (update_note 5 2 none none (some "public") 13
            (update_note 5 2 none none (some "draft") 12 c4DB).2).1 = .ok m2 ∧
        m2.published_at = some 13 ∧ m2.published_at ≠ some t0)) :=
  ⟨⟨rfl, rfl⟩,
    update_note_republish_keeps_and_draft_refreshes_stamp c4DB 5 2 c4Note rfl rfl
      10 11 12 13⟩

theorem autosave_note_only_content_and_updated_at_witness :
    (findNote c10DB 4 = some c10Note ∧ c10Note.user_id = 2) ∧
    (∃ n', autosave_note 2 4 "new" 9 c10DB =
        (.ok n', { c10DB with notes := putNote c10DB 4 n' }) ∧
      n'.content = "new" ∧ n'.updated_at = 9 ∧
      n'.title = c10Note.title ∧ n'.status = c10Note.status ∧
      n'.published_at = c10Note.published_at ∧ n'.created_at = c10Note.created_at ∧
      n'.user_id = c10Note.user_id ∧ n'.id = c10Note.id ∧
      (∀ m ∈ c10DB.notes, m.id ≠ 4 → m ∈ putNote c10DB 4 n')) :=
  ⟨⟨rfl, rfl⟩,
    autosave_note_only_content_and_updated_at c10DB 2 4 "new" 9 c10Note rfl rfl⟩

/-! Claim C3: the like and favorite toggle contract. -/

theorem find?_append_of_none {α} (p : α → Bool) (l1 l2 : List α)
    (h : l1.find? p = none) : (l1 ++ l2).find? p = l2.find? p := by
  simp [List.find?_append, h]

theorem eraseP_append_of_none {α} (p : α → Bool) (l1 l2 : List α)
    (h : l1.find? p = none) : (l1 ++ l2).eraseP p = l1 ++ l2.eraseP p := by
  induction l1 with
  | nil => simp
  | cons a as ih =>
    have hmem := List.find?_eq_none.mp h
    have hpa : p a = false := by
      have := hmem a (List.mem_cons_self a as)
      simpa using this
    have h' : as.find? p = none := by
      rwa [findCons_neg p a as hpa] at h
    simp [List.eraseP_cons, hpa, ih h']

theorem countP_eraseP_of_found {α} (p q : α → Bool) (l : List α) (a : α)
    (hfind : l.find? p = some a) (hq : q a = true) :
    (l.eraseP p).countP q + 1 = l.countP q := by
  induction l with
  | nil => simp at hfind
  | cons b bs ih =>
    by_cases hb : p b = true
    · have hba : b = a := by
        rw [findCons_pos p b bs hb] at hfind
        exact Option.some.inj hfind
      subst hba
      simp [List.eraseP_cons, hb, List.countP_cons, hq]
    · have hb' : p b = false := by simpa using hb
      have hfind' : bs.find? p = some a := by
        rwa [findCons_neg p b bs hb'] at hfind
      have := ih hfind'
      by_cases hqb : q b = true
      · simp [List.eraseP_cons, hb', List.countP_cons, hqb]
        omega
      · have hqb' : q b = false := by simpa using hqb
        simp [List.eraseP_cons, hb', List.countP_cons, hqb']
        omega

theorem find?_none_of_countP_zero {α} (p : α → Bool) (l : List α)
    (h : l.countP p = 0) : l.find? p = none := by
  rw [List.find?_eq_none]
  intro a ha hpa
  have := List.countP_pos_iff.mpr ⟨a, ha, hpa⟩
  omega

theorem countP_pos_of_find? {α} (p : α → Bool) (l : List α) (a : α)
    (h : l.find? p = some a) : 0 < l.countP p :=
  List.countP_pos_iff.mpr ⟨a, List.mem_of_find?_eq_some h, List.find?_some h⟩

theorem relPred_self (uid nid k now : Nat) :
    relPred uid nid { id := k, user_id := uid, note_id := nid, created_at := now } = true := by
  simp [relPred]

theorem relCount_append_one (rels : List Rel) (nid : Nat) (r : Rel)
    (h : (r.note_id == nid) = true) :
    relCount (rels ++ [r]) nid = relCount rels nid + 1 := by
  simp [relCount, List.filter_append, h]

theorem relCount_eraseP_found (rels : List Rel) (uid nid : Nat) (l : Rel)
    (h : rels.find? (relPred uid nid) = some l) :
    relCount (rels.eraseP (relPred uid nid)) nid + 1 = relCount rels nid := by
  have hpl : relPred uid nid l = true := List.find?_some h
  have hq : (l.note_id == nid) = true := by
    have := hpl
    unfold relPred at this
    exact (Bool.and_eq_true _ _).mp this |>.2
  have hc := countP_eraseP_of_found (relPred uid nid) (fun x => x.note_id == nid)
    rels l h hq
  simpa [relCount, List.countP_eq_length_filter] using hc

theorem toggle_like_notes (uid nid now : Nat) (s : DB) :
    (toggle_like uid nid now s).2.notes = s.notes := by
  unfold toggle_like
  cases hf : findNote s nid <;> simp

theorem toggle_favorite_notes (uid nid now : Nat) (s : DB) :
    (toggle_favorite uid nid now s).2.notes = s.notes := by
  unfold toggle_favorite
  cases hf : findNote s nid <;> simp

/-- C3: the toggle contract for both relation kinds.  When the note is
absent both toggles fail NotFound and leave the store unchanged.  When the
note exists: with no relation row for (user, note) the toggle inserts
exactly one row and returns active with the post-operation count (one more
than before); with a row present it deletes it and returns inactive with
the post-operation count (one less than before).  Toggling twice from a
state with at most one row for the pair (the uniqueness invariant) returns
to the original active state and leaves the count unchanged. -/
theorem toggle_like_favorite_contract (s : DB) (uid nid now now2 : Nat) :
    (findNote s nid = none →
      toggle_like uid nid now s = (.error .notFound, s) ∧
      toggle_favorite uid nid now s = (.error .notFound, s)) ∧
    (∀ note, findNote s nid = some note →
      ((s.likes.find? (relPred uid nid) = none →
        ∃ s', toggle_like uid nid now s = (.ok (true, relCount s'.likes nid), s') ∧
          s'.likes = s.likes ++
            [{ id := s.nextRelId, user_id := uid, note_id := nid, created_at := now }] ∧
          relCount s'.likes nid = relCount s.likes nid + 1) ∧
      (∀ l, s.likes.find? (relPred uid nid) = some l →
        ∃ s', toggle_like uid nid now s = (.ok (false, relCount s'.likes nid), s') ∧
          s'.likes = s.likes.eraseP (relPred uid nid) ∧
          relCount s'.likes nid + 1 = relCount s.likes nid) ∧
      (s.favorites.find? (relPred uid nid) = none →
        ∃ s', toggle_favorite uid nid now s = (.ok (true, relCount s'.favorites nid), s') ∧
          s'.favorites = s.favorites ++
            [{ id := s.nextRelId, user_id := uid, note_id := nid, created_at := now }] ∧
          relCount s'.favorites nid = relCount s.favorites nid + 1) ∧
      (∀ l, s.favorites.find? (relPred uid nid) = some l →
        ∃ s', toggle_favorite uid nid now s = (.ok (false, relCount s'.favorites nid), s') ∧
          s'.favorites = s.favorites.eraseP (relPred uid nid) ∧
          relCount s'.favorites nid + 1 = relCount s.favorites nid))) ∧
    (∀ note, findNote s nid = some note →
      s.likes.countP (relPred uid nid) ≤ 1 →
      ((toggle_like uid nid now2 (toggle_like uid nid now s).2).2.likes.find?
          (relPred uid nid)).isSome = (s.likes.find? (relPred uid nid)).isSome ∧
      relCount (toggle_like uid nid now2 (toggle_like uid nid now s).2).2.likes nid =
        relCount s.likes nid) ∧
    (∀ note, findNote s nid = some note →
      s.favorites.countP (relPred uid nid) ≤ 1 →
      ((toggle_favorite uid nid now2 (toggle_favorite uid nid now s).2).2.favorites.find?
          (relPred uid nid)).isSome = (s.favorites.find? (relPred uid nid)).isSome ∧
      relCount (toggle_favorite uid nid now2 (toggle_favorite uid nid now s).2).2.favorites
          nid = relCount s.favorites nid) := by
  refine ⟨?_, ?_, ?_, ?_⟩
  · intro hf
    constructor <;> simp [toggle_like, toggle_favorite, hf]
  · intro note hf
    refine ⟨?_, ?_, ?_, ?_⟩
    · intro hex
      refine ⟨{ s with likes := s.likes ++ [{ id := s.nextRelId, user_id := uid, note_id := nid, created_at := now }], nextRelId := s.nextRelId + 1 }, ?_, rfl, ?_⟩
      · simp [toggle_like, hf, relToggle, hex]
      · exact relCount_append_one s.likes nid _ (by simp)
    · intro l hex
      refine ⟨{ s with likes := s.likes.eraseP (relPred uid nid) }, ?_, rfl, ?_⟩
      · simp [toggle_like, hf, relToggle, hex]
      · exact relCount_eraseP_found s.likes uid nid l hex
    · intro hex
      refine ⟨{ s with favorites := s.favorites ++ [{ id := s.nextRelId, user_id := uid, note_id := nid, created_at := now }], nextRelId := s.nextRelId + 1 }, ?_, rfl, ?_⟩
      · simp [toggle_favorite, hf, relToggle, hex]
      · exact relCount_append_one s.favorites nid _ (by simp)
    · intro l hex
      refine ⟨{ s with favorites := s.favorites.eraseP (relPred uid nid) }, ?_, rfl, ?_⟩
      · simp [toggle_favorite, hf, relToggle, hex]
      · exact relCount_eraseP_found s.favorites uid nid l hex
  · intro note hf hcnt
    set s1 := (toggle_like uid nid now s).2 with hs1
    have hf1 : findNote s1 nid = some note := by
      rw [hs1]
      unfold findNote
      rw [toggle_like_notes]
      exact hf
    cases hex : s.likes.find? (relPred uid nid) with
    | none =>
      have h1 : s1.likes = s.likes ++ [{ id := s.nextRelId, user_id := uid, note_id := nid, created_at := now }] := by
        rw [hs1]
        simp [toggle_like, hf, relToggle, hex]
      have hex1 : s1.likes.find? (relPred uid nid) = some { id := s.nextRelId, user_id := uid, note_id := nid, created_at := now } := by
        rw [h1]
        rw [find?_append_of_none _ _ _ hex]
        exact findCons_pos _ _ [] (relPred_self uid nid s.nextRelId now)
      have h2 : (toggle_like uid nid now2 s1).2.likes = s1.likes.eraseP (relPred uid nid) := by
        simp [toggle_like, hf1, relToggle, hex1]
      have h3 : s1.likes.eraseP (relPred uid nid) = s.likes := by
        rw [h1]
        rw [eraseP_append_of_none _ _ _ hex]
        simp [List.eraseP_cons, relPred_self uid nid s.nextRelId now]
      rw [h2, h3, hex]
      exact ⟨rfl, rfl⟩
    | some l =>
      have hcnt1 : s.likes.countP (relPred uid nid) = 1 := by
        have := countP_pos_of_find? _ _ _ hex
        omega
      have h1 : s1.likes = s.likes.eraseP (relPred uid nid) := by
        rw [hs1]
        simp [toggle_like, hf, relToggle, hex]
      have hzero : (s.likes.eraseP (relPred uid nid)).countP (relPred uid nid) = 0 := by
        have := countP_eraseP_of_found (relPred uid nid) (relPred uid nid) s.likes l hex
          (List.find?_some hex)
        omega
      have hex1 : s1.likes.find? (relPred uid nid) = none := by
        rw [h1]
        exact find?_none_of_countP_zero _ _ hzero
      have h2 : (toggle_like uid nid now2 s1).2.likes = s1.likes ++ [{ id := s1.nextRelId, user_id := uid, note_id := nid, created_at := now2 }] := by
        simp [toggle_like, hf1, relToggle, hex1]
      constructor
      · rw [h2]
        rw [find?_append_of_none _ _ _ hex1]
        rw [findCons_pos _ _ [] (relPred_self uid nid s1.nextRelId now2)]
        simp [hex]
      · rw [h2]
        rw [relCount_append_one _ nid _ (by simp)]
        rw [h1]
        have := relCount_eraseP_found s.likes uid nid l hex
        omega
  · intro note hf hcnt
    set s1 := (toggle_favorite uid nid now s).2 with hs1
    have hf1 : findNote s1 nid = some note := by
      rw [hs1]
      unfold findNote
      rw [toggle_favorite_notes]
      exact hf
    cases hex : s.favorites.find? (relPred uid nid) with
    | none =>
      have h1 : s1.favorites = s.favorites ++ [{ id := s.nextRelId, user_id := uid, note_id := nid, created_at := now }] := by
        rw [hs1]
        simp [toggle_favorite, hf, relToggle, hex]
      have hex1 : s1.favorites.find? (relPred uid nid) = some { id := s.nextRelId, user_id := uid, note_id := nid, created_at := now } := by
        rw [h1]
        rw [find?_append_of_none _ _ _ hex]
        exact findCons_pos _ _ [] (relPred_self uid nid s.nextRelId now)
      have h2 : (toggle_favorite uid nid now2 s1).2.favorites = s1.favorites.eraseP (relPred uid nid) := by
        simp [toggle_favorite, hf1, relToggle, hex1]
      have h3 : s1.favorites.eraseP (relPred uid nid) = s.favorites := by
        rw [h1]
        rw [eraseP_append_of_none _ _ _ hex]
        simp [List.eraseP_cons, relPred_self uid nid s.nextRelId now]
      rw [h2, h3, hex]
      exact ⟨rfl, rfl⟩
    | some l =>
      have hcnt1 : s.favorites.countP (relPred uid nid) = 1 := by
        have := countP_pos_of_find? _ _ _ hex
        omega
      have h1 : s1.favorites = s.favorites.eraseP (relPred uid nid) := by
        rw [hs1]
        simp [toggle_favorite, hf, relToggle, hex]
      have hzero : (s.favorites.eraseP (relPred uid nid)).countP (relPred uid nid) = 0 := by
        have := countP_eraseP_of_found (relPred uid nid) (relPred uid nid) s.favorites l hex
          (List.find?_some hex)
        omega
      have hex1 : s1.favorites.find? (relPred uid nid) = none := by
        rw [h1]
        exact find?_none_of_countP_zero _ _ hzero
      have h2 : (toggle_favorite uid nid now2 s1).2.favorites = s1.favorites ++ [{ id := s1.nextRelId, user_id := uid, note_id := nid, created_at := now2 }] := by
        simp [toggle_favorite, hf1, relToggle, hex1]
      constructor
      · rw [h2]
        rw [find?_append_of_none _ _ _ hex1]
        rw [findCons_pos _ _ [] (relPred_self uid nid s1.nextRelId now2)]
        simp [hex]
      · rw [h2]
        rw [relCount_append_one _ nid _ (by simp)]
        rw [h1]
        have := relCount_eraseP_found s.favorites uid nid l hex
        omega

def c3Note : Note :=
  { id := 1, user_id := 2, title := "n", content := "b", status := "public",
    published_at := some 4, created_at := 1, updated_at := 1 }

def c3DB : DB :=
  { notes := [c3Note], likes := [{ id := 1, user_id := 9, note_id := 1, created_at := 2 }],
    favorites := [], comments := [], nextNoteId := 2, nextRelId := 2, nextCommentId := 1 }

theorem toggle_like_favorite_contract_witness :
    (findNote c3DB 1 = some c3Note ∧ c3DB.likes.countP (relPred 9 1) ≤ 1) ∧
    (((toggle_like 9 1 21 (toggle_like 9 1 20 c3DB).2).2.likes.find?
        (relPred 9 1)).isSome = (c3DB.likes.find? (relPred 9 1)).isSome ∧
      relCount (toggle_like 9 1 21 (toggle_like 9 1 20 c3DB).2).2.likes 1 =
        relCount c3DB.likes 1) :=
  ⟨⟨rfl, by decide⟩,
    (toggle_like_favorite_contract c3DB 9 1 20 21).2.2.1 c3Note rfl (by decide)⟩

/-! Claim C2: deleting an owned note cascades to its likes, favorites and
comments. -/

theorem eraseP_key_ne {α} (key : α → Nat) (l : List α) (k : Nat)
    (hnd : (l.map key).Nodup) :
    ∀ x ∈ l.eraseP (fun x => key x == k), key x ≠ k := by
  induction l with
  | nil => simp
  | cons a as ih =>
    rw [List.map_cons, List.nodup_cons] at hnd
    obtain ⟨hnin, hnd'⟩ := hnd
    by_cases h : (key a == k) = true
    · have hak : key a = k := by simpa using h
      rw [List.eraseP_cons, h]
      intro x hx hxk
      exact hnin (by rw [hak, ← hxk]; exact List.mem_map_of_mem key hx)
    · have h' : (key a == k) = false := by simpa using h
      rw [List.eraseP_cons, h']
      intro x hx
      rcases List.mem_cons.mp hx with rfl | hx
      · simpa using h
      · exact ih hnd' x hx

/-- C2: deleting a note owned by the caller removes the note row and
every like, favorite and comment row referencing it (cascade modelled
from the spec, see `delete_note`), leaving no engagement or comment row
for that note id; when note ids are duplicate-free no note row with the
deleted id remains either. -/
theorem delete_note_cascades (s : DB) (uid nid : Nat) (note : Note)
    (hfind : findNote s nid = some note) (hown : note.user_id = uid) :
    ∃ s', delete_note uid nid s = (.ok (), s') ∧
      s'.notes = s.notes.eraseP (fun n => n.id == nid) ∧
      s'.likes = s.likes.filter (fun l => l.note_id != nid) ∧
      s'.favorites = s.favorites.filter (fun f => f.note_id != nid) ∧
      s'.comments = s.comments.filter (fun c => c.note_id != nid) ∧
      (∀ l ∈ s'.likes, l.note_id ≠ nid) ∧
      (∀ f ∈ s'.favorites, f.note_id ≠ nid) ∧
      (∀ c ∈ s'.comments, c.note_id ≠ nid) ∧
      ((s.notes.map (fun n => n.id)).Nodup → ∀ n ∈ s'.notes, n.id ≠ nid) := by
  have hb : (note.user_id != uid) = false := by simp [hown]
  refine ⟨{ s with notes := s.notes.eraseP (fun n => n.id == nid), likes := s.likes.filter (fun l => l.note_id != nid), favorites := s.favorites.filter (fun f => f.note_id != nid), comments := s.comments.filter (fun c => c.note_id != nid) }, ?_, rfl, rfl, rfl, rfl, ?_, ?_, ?_, ?_⟩
  · simp [delete_note, hfind, hb]
  · intro l hl
    have := (List.mem_filter.mp hl).2
    simpa using this
  · intro f hf
    have := (List.mem_filter.mp hf).2
    simpa using this
  · intro c hc
    have := (List.mem_filter.mp hc).2
    simpa using this
  · intro hnd
    exact eraseP_key_ne (fun n => n.id) s.notes nid hnd

def c2DB : DB :=
  { notes := [{ id := 1, user_id := 2, title := "a", content := "x", status := "public", published_at := some 5, created_at := 1, updated_at := 1 }, { id := 2, user_id := 3, title := "b", content := "y", status := "public", published_at := some 6, created_at := 2, updated_at := 2 }],
    likes := [{ id := 1, user_id := 3, note_id := 1, created_at := 3 }, { id := 2, user_id := 3, note_id := 2, created_at := 3 }],
    favorites := [{ id := 1, user_id := 3, note_id := 1, created_at := 4 }],
    comments := [{ id := 1, user_id := 3, note_id := 1, parent_id := none, content := "hi", created_at := 5 }, { id := 2, user_id := 3, note_id := 2, parent_id := none, content := "yo", created_at := 6 }],
    nextNoteId := 3, nextRelId := 3, nextCommentId := 3 }

theorem delete_note_cascades_witness :
    (findNote c2DB 1 = some { id := 1, user_id := 2, title := "a", content := "x", status := "public", published_at := some 5, created_at := 1, updated_at := 1 } ∧
      ({ id := 1, user_id := 2, title := "a", content := "x", status := "public", published_at := some 5, created_at := 1, updated_at := 1 } : Note).user_id = 2) ∧
    (∃ s', delete_note 2 1 c2DB = (.ok (), s') ∧
      s'.notes = c2DB.notes.eraseP (fun n => n.id == 1) ∧
      s'.likes = c2DB.likes.filter (fun l => l.note_id != 1) ∧
      s'.favorites = c2DB.favorites.filter (fun f => f.note_id != 1) ∧
      s'.comments = c2DB.comments.filter (fun c => c.note_id != 1) ∧
      (∀ l ∈ s'.likes, l.note_id ≠ 1) ∧
      (∀ f ∈ s'.favorites, f.note_id ≠ 1) ∧
      (∀ c ∈ s'.comments, c.note_id ≠ 1) ∧
      ((c2DB.notes.map (fun n => n.id)).Nodup → ∀ n ∈ s'.notes, n.id ≠ 1)) :=
  ⟨⟨rfl, rfl⟩, delete_note_cascades c2DB 2 1 _ rfl rfl⟩

/-! Claim C8: parent validation on comment creation. -/

/-- Successful comment creation: the new row is appended with the current
time and the given parent id. -/
def commentCreated (s : DB) (uid nid : Nat) (content : String)
    (parentId : Option Nat) (now : Nat) : Prop :=
  ∃ c, create_comment uid nid content parentId now s =
      (.ok c, { s with comments := s.comments ++ [c], nextCommentId := s.nextCommentId + 1 }) ∧
    c.user_id = uid ∧ c.note_id = nid ∧ c.parent_id = parentId ∧
    c.content = content ∧ c.created_at = now

/-- C8 (amended): on an existing note, a given non-zero parentId whose
comment does not exist or belongs to a different note makes creation fail
InvalidParent with the store unchanged; a valid non-zero parent, an
absent parentId, and — the amendment — a parentId of exactly 0 (treated
as absent by the Python truthiness test, skipping validation) all create
the comment with created_at = now and the given parent_id. -/
theorem create_comment_parent_validation (s : DB) (uid nid : Nat)
    (content : String) (parentId : Option Nat) (now : Nat) (note : Note)
    (hfind : findNote s nid = some note) :
    (∀ p, parentId = some p → p ≠ 0 →
      s.comments.find? (fun c => c.id == p) = none →
      create_comment uid nid content parentId now s = (.error .invalidParent, s)) ∧
    (∀ p pc, parentId = some p → p ≠ 0 →
      s.comments.find? (fun c => c.id == p) = some pc → pc.note_id ≠ nid →
      create_comment uid nid content parentId now s = (.error .invalidParent, s)) ∧
    (∀ p pc, parentId = some p → p ≠ 0 →
      s.comments.find? (fun c => c.id == p) = some pc → pc.note_id = nid →
      commentCreated s uid nid content parentId now) ∧
    (parentId = none → commentCreated s uid nid content parentId now) ∧
    (parentId = some 0 → commentCreated s uid nid content parentId now) := by
  refine ⟨?_, ?_, ?_, ?_, ?_⟩
  · rintro p rfl hp hnone
    have hp' : (p == 0) = false := by simpa using hp
    simp [create_comment, hfind, hp', hnone]
  · rintro p pc rfl hp hsome hne
    have hp' : (p == 0) = false := by simpa using hp
    have hne' : (pc.note_id == nid) = false := by simpa using hne
    simp [create_comment, hfind, hp', hsome, hne']
  · rintro p pc rfl hp hsome heq
    have hp' : (p == 0) = false := by simpa using hp
    have heq' : (pc.note_id == nid) = true := by simpa using heq
    refine ⟨{ id := s.nextCommentId, user_id := uid, note_id := nid, parent_id := some p, content := content, created_at := now }, ?_, rfl, rfl, rfl, rfl, rfl⟩
    simp [create_comment, hfind, hp', hsome, heq']
  · rintro rfl
    refine ⟨{ id := s.nextCommentId, user_id := uid, note_id := nid, parent_id := none, content := content, created_at := now }, ?_, rfl, rfl, rfl, rfl, rfl⟩
    simp [create_comment, hfind]
  · rintro rfl
    refine ⟨{ id := s.nextCommentId, user_id := uid, note_id := nid, parent_id := some 0, content := content, created_at := now }, ?_, rfl, rfl, rfl, rfl, rfl⟩
    simp [create_comment, hfind]

def c8DB : DB :=
  { notes := [{ id := 1, user_id := 2, title := "t", content := "c", status := "public", published_at := some 1, created_at := 0, updated_at := 0 }],
    likes := [], favorites := [], comments := [],
    nextNoteId := 2, nextRelId := 1, nextCommentId := 1 }

/-- C8 counterexample: the note exists, a parentId of 0 is supplied, no
comment with id 0 exists (the comment table is empty), yet the operation
does not fail InvalidParent: it creates the comment with the dangling
parent_id 0. -/
theorem create_comment_zero_parent_not_validated :
    c8DB.comments = [] ∧
    (create_comment 2 1 "hi" (some 0) 9 c8DB).1 =
      .ok { id := 1, user_id := 2, note_id := 1, parent_id := some 0, content := "hi", created_at := 9 } :=
  ⟨rfl, rfl⟩

def c8vDB : DB :=
  { notes := [{ id := 1, user_id := 2, title := "t", content := "c", status := "public", published_at := some 1, created_at := 0, updated_at := 0 }, { id := 2, user_id := 2, title := "u", content := "d", status := "public", published_at := some 2, created_at := 0, updated_at := 0 }],
    likes := [], favorites := [],
    comments := [{ id := 1, user_id := 3, note_id := 2, parent_id := none, content := "on the other note", created_at := 3 }],
    nextNoteId := 3, nextRelId := 1, nextCommentId := 2 }

theorem create_comment_parent_validation_witness :
    (findNote c8vDB 1 = some { id := 1, user_id := 2, title := "t", content := "c", status := "public", published_at := some 1, created_at := 0, updated_at := 0 } ∧
      c8vDB.comments.find? (fun c => c.id == 1) = some { id := 1, user_id := 3, note_id := 2, parent_id := none, content := "on the other note", created_at := 3 } ∧
      ({ id := 1, user_id := 3, note_id := 2, parent_id := none, content := "on the other note", created_at := 3 } : Comment).note_id ≠ 1) ∧
    create_comment 4 1 "reply" (some 1) 9 c8vDB = (.error .invalidParent, c8vDB) :=
  ⟨⟨rfl, rfl, by decide⟩,
    (create_comment_parent_validation c8vDB 4 1 "reply" (some 1) 9 _ rfl).2.1 1
      _ rfl (by decide) rfl (by decide)⟩

/-! Claim C9: the discover feed. -/

theorem mem_insertByPubDesc (n x : Note) (l : List Note) :
    x ∈ insertByPubDesc n l ↔ x = n ∨ x ∈ l := by
  induction l with
  | nil => simp [insertByPubDesc]
  | cons m ms ih =>
    by_cases h : pubKey m < pubKey n
    · simp only [insertByPubDesc, if_pos h, List.mem_cons]
    · simp only [insertByPubDesc, if_neg h, List.mem_cons, ih]
      tauto

theorem mem_orderByPubDesc (x : Note) (l : List Note) :
    x ∈ orderByPubDesc l ↔ x ∈ l := by
  induction l with
  | nil => simp [orderByPubDesc]
  | cons m ms ih =>
    simp only [orderByPubDesc, mem_insertByPubDesc, List.mem_cons, ih]

theorem pairwise_insertByPubDesc (n : Note) (l : List Note)
    (h : l.Pairwise (fun a b => pubKey b ≤ pubKey a)) :
    (insertByPubDesc n l).Pairwise (fun a b => pubKey b ≤ pubKey a) := by
  induction l with
  | nil => simp [insertByPubDesc]
  | cons m ms ih =>
    rcases List.pairwise_cons.mp h with ⟨hm, hms⟩
    by_cases hlt : pubKey m < pubKey n
    · rw [insertByPubDesc, if_pos hlt]
      refine List.pairwise_cons.mpr ⟨?_, h⟩
      intro x hx
      rcases List.mem_cons.mp hx with rfl | hx
      · omega
      · have := hm x hx
        omega
    · rw [insertByPubDesc, if_neg hlt]
      refine List.pairwise_cons.mpr ⟨?_, ih hms⟩
      intro x hx
      rcases (mem_insertByPubDesc n x ms).mp hx with rfl | hx
      · omega
      · exact hm x hx

theorem pairwise_orderByPubDesc (l : List Note) :
    (orderByPubDesc l).Pairwise (fun a b => pubKey b ≤ pubKey a) := by
  induction l with
  | nil => simp [orderByPubDesc]
  | cons m ms ih => exact pairwise_insertByPubDesc m (orderByPubDesc ms) ih

/-- C9: for page ≥ 1, the discover feed lists only notes whose status is
"public"; the page is exactly the slice of the published_at-descending
ordering of the qualifying rows starting at offset (page-1)*pageSize and
of length at most pageSize; the listed page is sorted by published_at
descending; and the returned total counts all public notes ignoring
pagination (the query's extra published_at-non-null conjunct is vacuous
under the publication invariant). -/
theorem get_discover_notes_spec (s : DB) (page pageSize : Nat) (hpage : 1 ≤ page)
    (hinv : ∀ n ∈ s.notes, n.status = "public" → n.published_at ≠ none) :
    (∀ n ∈ (get_discover_notes page pageSize s).1, n.status = "public") ∧
    (get_discover_notes page pageSize s).1 =
      ((orderByPubDesc (discoverQualifying s)).drop ((page - 1) * pageSize)).take
        pageSize ∧
    (get_discover_notes page pageSize s).1.Pairwise
      (fun a b => pubKey b ≤ pubKey a) ∧
    (get_discover_notes page pageSize s).2 =
      (s.notes.filter (fun n => n.status == "public")).length := by
  refine ⟨?_, rfl, ?_, ?_⟩
  · intro n hn
    have h1 : n ∈ orderByPubDesc (discoverQualifying s) :=
      List.mem_of_mem_drop (List.mem_of_mem_take hn)
    have h2 : n ∈ discoverQualifying s := (mem_orderByPubDesc n _).mp h1
    have h3 := (List.mem_filter.mp h2).2
    have h4 := (Bool.and_eq_true _ _).mp h3 |>.1
    simpa using h4
  · have hp := pairwise_orderByPubDesc (discoverQualifying s)
    have hsub : List.Sublist
        (((orderByPubDesc (discoverQualifying s)).drop ((page - 1) * pageSize)).take
          pageSize)
        (orderByPubDesc (discoverQualifying s)) :=
      List.Sublist.trans (List.take_sublist _ _) (List.drop_sublist _ _)
    exact hp.sublist hsub
  · show (discoverQualifying s).length = _
    unfold discoverQualifying
    congr 1
    apply List.filter_congr
    intro n hn
    by_cases hst : n.status = "public"
    · have hpub := hinv n hn hst
      simp [hst, hpub]
    · simp [hst]

def c9DB : DB :=
  { notes := [{ id := 1, user_id := 2, title := "a", content := "x", status := "public", published_at := some 5, created_at := 1, updated_at := 1 }, { id := 2, user_id := 2, title := "b", content := "y", status := "private", published_at := none, created_at := 2, updated_at := 2 }, { id := 3, user_id := 3, title := "c", content := "z", status := "public", published_at := some 9, created_at := 3, updated_at := 3 }],
    likes := [], favorites := [], comments := [],
    nextNoteId := 4, nextRelId := 1, nextCommentId := 1 }

theorem get_discover_notes_spec_witness :
    (1 ≤ 1 ∧ ∀ n ∈ c9DB.notes, n.status = "public" → n.published_at ≠ none) ∧
    ((∀ n ∈ (get_discover_notes 1 20 c9DB).1, n.status = "public") ∧
    (get_discover_notes 1 20 c9DB).1 =
      ((orderByPubDesc (discoverQualifying c9DB)).drop ((1 - 1) * 20)).take 20 ∧
    (get_discover_notes 1 20 c9DB).1.Pairwise (fun a b => pubKey b ≤ pubKey a) ∧
    (get_discover_notes 1 20 c9DB).2 =
      (c9DB.notes.filter (fun n => n.status == "public")).length) :=
  ⟨⟨by decide, by decide⟩, get_discover_notes_spec c9DB 1 20 (by decide) (by decide)⟩

/-! Claims C5 and C6: the comment tree.  `allNodes` collects every node of
a rendered tree (the node itself and, recursively, its replies), so
"appears in the tree" is membership in `allNodesList` of the forest. -/

mutual
def CNode.allNodes : CNode → List CNode
  | .mk c rs => .mk c rs :: allNodesList rs
def allNodesList : List CNode → List CNode
  | [] => []
  | n :: ns => n.allNodes ++ allNodesList ns
end

theorem mem_allNodesList (n : CNode) (ns : List CNode) :
    n ∈ allNodesList ns ↔ ∃ m ∈ ns, n ∈ m.allNodes := by
  induction ns with
  | nil => simp [allNodesList]
  | cons m ms ih =>
    rw [allNodesList]
    constructor
    · intro h
      rcases List.mem_append.mp h with h | h
      · exact ⟨m, List.mem_cons_self m ms, h⟩
      · obtain ⟨x, hx, hnx⟩ := ih.mp h
        exact ⟨x, List.mem_cons_of_mem m hx, hnx⟩
    · rintro ⟨x, hx, hnx⟩
      rcases List.mem_cons.mp hx with rfl | hx
      · exact List.mem_append.mpr (Or.inl hnx)
      · exact List.mem_append.mpr (Or.inr (ih.mpr ⟨x, hx, hnx⟩))

theorem buildNode_comment (cs : List Comment) (fuel : Nat) (c : Comment) :
    (buildNode cs fuel c).comment = c := by
  cases fuel <;> simp [buildNode, CNode.comment]

theorem countP_le_of_imp {α} (p q : α → Bool) (l : List α)
    (himp : ∀ x, q x = true → p x = true) : l.countP q ≤ l.countP p := by
  induction l with
  | nil => simp
  | cons a as ih =>
    rw [List.countP_cons, List.countP_cons]
    by_cases hq : q a = true
    · rw [hq, himp a hq]
      omega
    · have hq' : q a = false := by simpa using hq
      by_cases hp : p a = true <;> simp [hp, hq'] <;> omega

theorem countP_lt_of_witness {α} (p q : α → Bool) (l : List α)
    (himp : ∀ x, q x = true → p x = true) (d : α) (hd : d ∈ l)
    (hpd : p d = true) (hqd : q d = false) : l.countP q < l.countP p := by
  induction l with
  | nil => simp at hd
  | cons a as ih =>
    rw [List.countP_cons, List.countP_cons]
    rcases List.mem_cons.mp hd with rfl | hd
    · rw [hpd, hqd]
      have := countP_le_of_imp p q as himp
      simp
      omega
    · by_cases hq : q a = true
      · rw [hq, himp a hq]
        have := ih hd
        omega
      · have hq' : q a = false := by simpa using hq
        have := ih hd
        by_cases hp : p a = true <;> simp [hp, hq'] <;> omega

theorem countP_lt_length_of_witness {α} (q : α → Bool) (l : List α) (d : α)
    (hd : d ∈ l) (hqd : q d = false) : l.countP q < l.length := by
  have h := countP_lt_of_witness (fun _ => true) q l (fun x _ => rfl) d hd rfl hqd
  simpa [List.countP_true] using h

/-- Every node of a rendered subtree whose fuel dominates the number of
comments with larger id than its root carries, as replies, exactly the
comments whose parent_id points at it, in stored order.  The hypothesis
that a parent id is smaller than its comment's id holds by construction:
a comment can only reference a comment created before it. -/
theorem buildNode_allNodes_replies (cs : List Comment)
    (hlt : ∀ c ∈ cs, ∀ q, c.parent_id = some q → q < c.id) :
    ∀ fuel, ∀ c ∈ cs, cs.countP (fun d => decide (c.id < d.id)) < fuel →
      ∀ n ∈ (buildNode cs fuel c).allNodes,
        n.replies.map CNode.comment =
          cs.filter (fun d => d.parent_id == some n.comment.id) := by
  intro fuel
  induction fuel with
  | zero =>
    intro c hc hcnt
    omega
  | succ f ih =>
    intro c hc hcnt n hn
    rw [buildNode, CNode.allNodes] at hn
    rcases List.mem_cons.mp hn with rfl | hn
    · rw [CNode.replies, CNode.comment, List.map_map]
      have hcg : ∀ d ∈ cs.filter (fun d => d.parent_id == some c.id),
          (CNode.comment ∘ buildNode cs f) d = id d := by
        intro d _
        simp [buildNode_comment]
      rw [List.map_congr_left hcg, List.map_id]
    · rw [mem_allNodesList] at hn
      obtain ⟨m, hm, hnm⟩ := hn
      obtain ⟨d, hd, rfl⟩ := List.mem_map.mp hm
      have hdcs : d ∈ cs := (List.mem_filter.mp hd).1
      have hdp : d.parent_id = some c.id := by
        simpa using (List.mem_filter.mp hd).2
      have hcd : c.id < d.id := hlt d hdcs c.id hdp
      have hstep := countP_lt_of_witness (fun e => decide (c.id < e.id))
        (fun e => decide (d.id < e.id)) cs
        (fun x hx => by simp at hx ⊢; omega) d hdcs (by simpa using hcd) (by simp)
      exact ih d hdcs (by omega) n hnm

/-- Every comment carried by a node of a rendered subtree is either the
subtree's root or has a parent present among the stored comments. -/
theorem buildNode_allNodes_origin (cs : List Comment) :
    ∀ fuel, ∀ c ∈ cs, ∀ n ∈ (buildNode cs fuel c).allNodes,
      n.comment = c ∨ ∃ e ∈ cs, n.comment.parent_id = some e.id := by
  intro fuel
  induction fuel with
  | zero =>
    intro c _ n hn
    rw [buildNode, CNode.allNodes] at hn
    rcases List.mem_cons.mp hn with rfl | hn
    · left
      rfl
    · simp [allNodesList] at hn
  | succ f ih =>
    intro c hc n hn
    rw [buildNode, CNode.allNodes] at hn
    rcases List.mem_cons.mp hn with rfl | hn
    · left
      rfl
    · rw [mem_allNodesList] at hn
      obtain ⟨m, hm, hnm⟩ := hn
      obtain ⟨d, hd, rfl⟩ := List.mem_map.mp hm
      have hdcs : d ∈ cs := (List.mem_filter.mp hd).1
      have hdp : d.parent_id = some c.id := by
        simpa using (List.mem_filter.mp hd).2
      rcases ih d hdcs n hnm with h | h
      · right
        exact ⟨c, hc, by rw [h, hdp]⟩
      · right
        exact h

/-- A comment whose parent id is dangling (no stored comment has that id)
appears nowhere in the rendered forest. -/
theorem commentForest_dangling (cs : List Comment) (c : Comment) (p : Nat)
    (hp : c.parent_id = some p) (hnone : ∀ e ∈ cs, e.id ≠ p) :
    ∀ n ∈ allNodesList (commentForest cs), n.comment ≠ c := by
  intro n hn heq
  rw [mem_allNodesList] at hn
  obtain ⟨m, hm, hnm⟩ := hn
  obtain ⟨d, hd, rfl⟩ := List.mem_map.mp hm
  have hdcs : d ∈ cs := (List.mem_filter.mp hd).1
  have hdnone : d.parent_id = none := by
    simpa using (List.mem_filter.mp hd).2
  rcases buildNode_allNodes_origin cs cs.length d hdcs n hnm with h | ⟨e, he, hpe⟩
  · rw [heq] at h
    rw [← h, hp] at hdnone
    cases hdnone
  · rw [heq] at hpe
    rw [hp] at hpe
    exact hnone e he (by injection hpe with h2; omega)

theorem length_insertByCreated (c : Comment) (l : List Comment) :
    (insertByCreated c l).length = l.length + 1 := by
  induction l with
  | nil => simp [insertByCreated]
  | cons d ds ih =>
    rw [insertByCreated]
    by_cases h : c.created_at < d.created_at
    · rw [if_pos h]
      simp
    · rw [if_neg h]
      simp [ih]

theorem length_orderByCreatedAsc (l : List Comment) :
    (orderByCreatedAsc l).length = l.length := by
  induction l with
  | nil => simp [orderByCreatedAsc]
  | cons c cs ih => simp [orderByCreatedAsc, length_insertByCreated, ih]

theorem mem_insertByCreated (c x : Comment) (l : List Comment) :
    x ∈ insertByCreated c l ↔ x = c ∨ x ∈ l := by
  induction l with
  | nil => simp [insertByCreated]
  | cons d ds ih =>
    rw [insertByCreated]
    by_cases h : c.created_at < d.created_at
    · rw [if_pos h]
      simp only [List.mem_cons]
    · rw [if_neg h]
      simp only [List.mem_cons, ih]
      tauto

theorem mem_orderByCreatedAsc (x : Comment) (l : List Comment) :
    x ∈ orderByCreatedAsc l ↔ x ∈ l := by
  induction l with
  | nil => simp [orderByCreatedAsc]
  | cons c cs ih => simp only [orderByCreatedAsc, mem_insertByCreated, List.mem_cons, ih]

theorem mem_eraseP_of_false {α} (p : α → Bool) (l : List α) (d : α)
    (hd : d ∈ l) (hp : p d = false) : d ∈ l.eraseP p := by
  induction l with
  | nil => cases hd
  | cons a as ih =>
    rcases List.mem_cons.mp hd with rfl | hd
    · simp [List.eraseP_cons, hp]
    · rw [List.eraseP_cons]
      by_cases ha : p a = true
      · rw [ha]
        exact hd
      · have ha' : p a = false := by simpa using ha
        rw [ha']
        exact List.mem_cons_of_mem a (ih hd)

/-- C5: for an existing note, the comment listing returns the rendered
forest of the note's comments in creation order together with a total
that counts every stored comment of the note (orphans included); the root
sequence carries exactly the comments with null parent_id in order; every
node of the forest carries as replies exactly the comments whose
parent_id points at it, in order; and a comment whose parent_id
references no present comment appears nowhere in the forest.  The
parent-before-child hypothesis (a parent id is smaller than its comment's
id) holds by construction since ids are assigned monotonically. -/
theorem get_comments_spec (s : DB) (nid : Nat) (note : Note)
    (hfind : findNote s nid = some note)
    (hlt : ∀ c ∈ commentsOf s nid, ∀ q, c.parent_id = some q → q < c.id) :
    get_comments nid s =
      .ok (commentForest (commentsOf s nid), (commentsOf s nid).length) ∧
    (commentsOf s nid).length =
      (s.comments.filter (fun c => c.note_id == nid)).length ∧
    (commentForest (commentsOf s nid)).map CNode.comment =
      (commentsOf s nid).filter (fun c => c.parent_id == none) ∧
    (∀ n ∈ allNodesList (commentForest (commentsOf s nid)),
      n.replies.map CNode.comment =
        (commentsOf s nid).filter (fun d => d.parent_id == some n.comment.id)) ∧
    (∀ c ∈ commentsOf s nid, ∀ p, c.parent_id = some p →
      (∀ e ∈ commentsOf s nid, e.id ≠ p) →
      ∀ n ∈ allNodesList (commentForest (commentsOf s nid)), n.comment ≠ c) := by
  refine ⟨by simp [get_comments, hfind], ?_, ?_, ?_, ?_⟩
  · unfold commentsOf
    exact length_orderByCreatedAsc _
  · unfold commentForest
    rw [List.map_map]
    have hcg : ∀ d ∈ (commentsOf s nid).filter (fun c => c.parent_id == none),
        (CNode.comment ∘ buildNode (commentsOf s nid) (commentsOf s nid).length) d =
          id d := by
      intro d _
      simp [buildNode_comment]
    rw [List.map_congr_left hcg, List.map_id]
  · intro n hn
    rw [mem_allNodesList] at hn
    obtain ⟨m, hm, hnm⟩ := hn
    obtain ⟨d, hd, rfl⟩ := List.mem_map.mp hm
    have hdcs : d ∈ commentsOf s nid := (List.mem_filter.mp hd).1
    have hcnt : (commentsOf s nid).countP (fun e => decide (d.id < e.id)) <
        (commentsOf s nid).length :=
      countP_lt_length_of_witness _ _ d hdcs (by simp)
    exact buildNode_allNodes_replies (commentsOf s nid) hlt
      (commentsOf s nid).length d hdcs hcnt n hnm
  · intro c _ p hp hnone
    exact commentForest_dangling (commentsOf s nid) c p hp hnone

def c5DB : DB :=
  { notes := [{ id := 1, user_id := 2, title := "t", content := "c", status := "public", published_at := some 1, created_at := 0, updated_at := 0 }],
    likes := [], favorites := [],
    comments := [{ id := 1, user_id := 3, note_id := 1, parent_id := none, content := "A", created_at := 10 }, { id := 2, user_id := 4, note_id := 1, parent_id := some 1, content := "B", created_at := 11 }, { id := 3, user_id := 5, note_id := 1, parent_id := some 1, content := "C", created_at := 12 }],
    nextNoteId := 2, nextRelId := 1, nextCommentId := 4 }

theorem get_comments_spec_witness :
    ((findNote c5DB 1).isSome ∧
      (∀ c ∈ commentsOf c5DB 1, ∀ q, c.parent_id = some q → q < c.id)) ∧
    (get_comments 1 c5DB =
      .ok (commentForest (commentsOf c5DB 1), (commentsOf c5DB 1).length) ∧
    (commentsOf c5DB 1).length =
      (c5DB.comments.filter (fun c => c.note_id == 1)).length ∧
    (commentForest (commentsOf c5DB 1)).map CNode.comment =
      (commentsOf c5DB 1).filter (fun c => c.parent_id == none) ∧
    (∀ n ∈ allNodesList (commentForest (commentsOf c5DB 1)),
      n.replies.map CNode.comment =
        (commentsOf c5DB 1).filter (fun d => d.parent_id == some n.comment.id)) ∧
    (∀ c ∈ commentsOf c5DB 1, ∀ p, c.parent_id = some p →
      (∀ e ∈ commentsOf c5DB 1, e.id ≠ p) →
      ∀ n ∈ allNodesList (commentForest (commentsOf c5DB 1)), n.comment ≠ c)) := by
  have hlt : ∀ c ∈ commentsOf c5DB 1, ∀ q, c.parent_id = some q → q < c.id := by
    have he : commentsOf c5DB 1 = c5DB.comments := by decide
    rw [he]
    intro c hc q hq
    fin_cases hc
    · cases hq
    · injection hq with h
      show q < 2
      omega
    · injection hq with h
      show q < 3
      omega
  exact ⟨⟨rfl, hlt⟩, get_comments_spec c5DB 1 _ rfl hlt⟩

/-- C6: comment deletion fails NotFound when the comment is absent,
Forbidden when the caller does not own it (both leaving the store
unchanged); on success exactly the found comment row is erased — every
other comment, children included, is still present with all its fields —
the comment count drops by exactly one, with duplicate-free ids no row
with the deleted id remains, and every child of the deleted comment
(parent_id pointing at it) is absent from the reply forest any subsequent
listing of its note renders. -/
theorem delete_comment_spec (s : DB) (uid cid : Nat) :
    (s.comments.find? (fun c => c.id == cid) = none →
      delete_comment uid cid s = (.error .notFound, s)) ∧
    (∀ c, s.comments.find? (fun c => c.id == cid) = some c → c.user_id ≠ uid →
      delete_comment uid cid s = (.error .forbidden, s)) ∧
    (∀ c, s.comments.find? (fun c => c.id == cid) = some c → c.user_id = uid →
      delete_comment uid cid s =
        (.ok (), { s with comments := s.comments.eraseP (fun d => d.id == cid) }) ∧
      (s.comments.eraseP (fun d => d.id == cid)).length + 1 = s.comments.length ∧
      (∀ d ∈ s.comments, d.id ≠ cid → d ∈ s.comments.eraseP (fun d => d.id == cid)) ∧
      ((s.comments.map (fun d => d.id)).Nodup →
        ∀ d ∈ s.comments.eraseP (fun d => d.id == cid), d.id ≠ cid)) ∧
    (∀ c, s.comments.find? (fun c => c.id == cid) = some c → c.user_id = uid →
      (s.comments.map (fun d => d.id)).Nodup →
      ∀ d ∈ (delete_comment uid cid s).2.comments, d.parent_id = some cid →
        ∀ n ∈ allNodesList
            (commentForest (commentsOf (delete_comment uid cid s).2 d.note_id)),
          n.comment ≠ d) := by
  refine ⟨?_, ?_, ?_, ?_⟩
  · intro h
    simp [delete_comment, h]
  · intro c hfind hne
    have hb : (c.user_id != uid) = true := by simpa using hne
    simp [delete_comment, hfind, hb]
  · intro c hfind heq
    have hb : (c.user_id != uid) = false := by simp [heq]
    refine ⟨by simp [delete_comment, hfind, hb], ?_, ?_, ?_⟩
    · have hmem : c ∈ s.comments := List.mem_of_find?_eq_some hfind
      have hpc : (c.id == cid) = true := by
        have h := List.find?_some hfind
        simpa using h
      rw [List.length_eraseP_of_mem hmem hpc]
      have : 0 < s.comments.length := List.length_pos_of_mem hmem
      omega
    · intro d hd hne
      have hndf : (d.id == cid) = false := by simpa using hne
      exact mem_eraseP_of_false _ s.comments d hd hndf
    · intro hnd
      exact eraseP_key_ne (fun d => d.id) s.comments cid hnd
  · intro c hfind heq hnd d hd hdp n hn
    have hb : (c.user_id != uid) = false := by simp [heq]
    have hs' : (delete_comment uid cid s).2 =
        { s with comments := s.comments.eraseP (fun d => d.id == cid) } := by
      simp [delete_comment, hfind, hb]
    rw [hs'] at hd hn
    have hnone : ∀ e ∈ commentsOf { s with comments := s.comments.eraseP (fun d => d.id == cid) } d.note_id, e.id ≠ cid := by
      intro e he
      have he1 : e ∈ (s.comments.eraseP (fun d => d.id == cid)).filter
          (fun x => x.note_id == d.note_id) := by
        have := (mem_orderByCreatedAsc e _).mp he
        simpa [commentsOf] using this
      have he2 : e ∈ s.comments.eraseP (fun d => d.id == cid) :=
        (List.mem_filter.mp he1).1
      exact eraseP_key_ne (fun x => x.id) s.comments cid hnd e he2
    exact commentForest_dangling _ d cid hdp hnone n hn

def c6DB : DB :=
  { notes := [{ id := 1, user_id := 2, title := "t", content := "c", status := "public", published_at := some 1, created_at := 0, updated_at := 0 }],
    likes := [], favorites := [],
    comments := [{ id := 1, user_id := 3, note_id := 1, parent_id := none, content := "A", created_at := 10 }, { id := 2, user_id := 4, note_id := 1, parent_id := some 1, content := "B", created_at := 11 }, { id := 3, user_id := 5, note_id := 1, parent_id := some 1, content := "C", created_at := 12 }],
    nextNoteId := 2, nextRelId := 1, nextCommentId := 4 }

theorem delete_comment_spec_witness :
    (c6DB.comments.find? (fun c => c.id == 1) =
        some { id := 1, user_id := 3, note_id := 1, parent_id := none, content := "A", created_at := 10 } ∧
      ({ id := 1, user_id := 3, note_id := 1, parent_id := none, content := "A", created_at := 10 } : Comment).user_id = 3 ∧
      (c6DB.comments.map (fun d => d.id)).Nodup) ∧
    ((c6DB.comments.find? (fun c => c.id == 1) = none →
      delete_comment 3 1 c6DB = (.error .notFound, c6DB)) ∧
    (∀ c, c6DB.comments.find? (fun c => c.id == 1) = some c → c.user_id ≠ 3 →
      delete_comment 3 1 c6DB = (.error .forbidden, c6DB)) ∧
    (∀ c, c6DB.comments.find? (fun c => c.id == 1) = some c → c.user_id = 3 →
      delete_comment 3 1 c6DB =
        (.ok (), { c6DB with comments := c6DB.comments.eraseP (fun d => d.id == 1) }) ∧
      (c6DB.comments.eraseP (fun d => d.id == 1)).length + 1 = c6DB.comments.length ∧
      (∀ d ∈ c6DB.comments, d.id ≠ 1 → d ∈ c6DB.comments.eraseP (fun d => d.id == 1)) ∧
      ((c6DB.comments.map (fun d => d.id)).Nodup →
        ∀ d ∈ c6DB.comments.eraseP (fun d => d.id == 1), d.id ≠ 1)) ∧
    (∀ c, c6DB.comments.find? (fun c => c.id == 1) = some c → c.user_id = 3 →
      (c6DB.comments.map (fun d => d.id)).Nodup →
      ∀ d ∈ (delete_comment 3 1 c6DB).2.comments, d.parent_id = some 1 →
        ∀ n ∈ allNodesList
            (commentForest (commentsOf (delete_comment 3 1 c6DB).2 d.note_id)),
          n.comment ≠ d)) :=
  ⟨⟨rfl, rfl, by decide⟩, delete_comment_spec c6DB 3 1⟩

end NoteServer
